import Mathlib

/-!
# Verification of the mseedlib wrapper against its specification

Shallow embedding of the Python `mseedlib` package (a wrapper around the
libmseed C library for miniSEED seismic data).  Pure Python logic is
translated directly from the source files under `src/`; behaviour that
lives only in the bundled C library (and is therefore absent from the
Python sources) is modelled from the specification, with each such
definition marked `Modelled from the spec:` in its doc comment.

Machine integers of the wrapper (`int64` nanosecond times, sample counts)
are modelled as `Int`/`Nat`; the `double` sample rates are modelled as
exact rationals `ℚ`, which agrees with the IEEE-754 doubles of the source
at every concrete input used below.
-/

namespace Mseedlib

/-! ## Record end time (spec §4.1 `endtime`)

`MS3Record.endtime` delegates to `msr3_endtime` in the C library, which is
not part of the Python sources. -/

/-- Modelled from the spec: the effective sample rate used by `endtime` is
`abs(sample_rate)` when the stored rate is a negative period, else the raw
value (`msr3_endtime` is in the bundled libmseed C library, absent from
the Python sources). -/
def effectiveSampleRate (samprate : ℚ) : ℚ :=
  if samprate < 0 then |samprate| else samprate

/-- Modelled from the spec: `endtime()` is
`starttime + round((sample_count - 1) / effective_sample_rate * 1e9)`
nanoseconds; zero-sample or zero-rate records have `endtime == starttime`
(`msr3_endtime` is in the bundled libmseed C library, absent from the
Python sources). -/
def msr3_endtime (starttime : ℤ) (samprate : ℚ) (samplecnt : ℤ) : ℤ :=
  if samplecnt ≤ 0 ∨ effectiveSampleRate samprate = 0 then starttime
  else starttime + round (((samplecnt : ℚ) - 1) / effectiveSampleRate samprate * 10 ^ 9)

/-! ## Time-window trimming (`examples/stream_timewindow.py`) -/

/-- Python `int()` applied to a number: truncation toward zero. -/
def pyInt (q : ℚ) : ℤ :=
  if 0 ≤ q then ⌊q⌋ else ⌈q⌉

/-- The logical content of a fully decoded record as used by
`trim_record` in `examples/stream_timewindow.py`: start time (ns),
sample rate in Hz (the `samprate` property), header sample count and the
decoded data samples. -/
@[ext]
structure TrimRecord where
  starttime : ℤ
  samprate : ℚ
  samplecnt : ℤ
  datasamples : List ℤ
  deriving Repr, DecidableEq

/-- Property `msr.endtime` of a `TrimRecord` (delegates to the modelled
`msr3_endtime`). -/
def TrimRecord.endtime (msr : TrimRecord) : ℤ :=
  msr3_endtime msr.starttime msr.samprate msr.samplecnt

/-- The loop `while starttime < earliest: starttime += period; count += 1`
from `trim_record`, embedded with an explicit iteration bound: each
iteration adds `p ≥ 1`, so at most `(e - s).toNat` iterations happen
before `s < e` fails.  (For `p ≤ 0` the Python loop would not terminate
when `s < e`; `trimAdvance` guards on `0 < p`.) -/
def trimAdvanceGo (e p : ℤ) : ℕ → ℤ → ℤ × ℕ
  | 0, s => (s, 0)
  | fuel + 1, s =>
      if s < e then
        ((trimAdvanceGo e p fuel (s + p)).1, (trimAdvanceGo e p fuel (s + p)).2 + 1)
      else (s, 0)

/-- Final `starttime` and dropped-sample count of the leading-trim loop. -/
def trimAdvance (e p s : ℤ) : ℤ × ℕ :=
  if 0 < p then trimAdvanceGo e p (e - s).toNat s else (s, 0)

/-- The loop `while endtime > latest: endtime -= period; count += 1`
from `trim_record`, embedded with an explicit iteration bound (see
`trimAdvanceGo`). -/
def trimRetreatGo (l p : ℤ) : ℕ → ℤ → ℤ × ℕ
  | 0, en => (en, 0)
  | fuel + 1, en =>
      if l < en then
        ((trimRetreatGo l p fuel (en - p)).1, (trimRetreatGo l p fuel (en - p)).2 + 1)
      else (en, 0)

/-- Final `endtime` and trailing-trim count of the trailing-trim loop. -/
def trimRetreat (l p en : ℤ) : ℤ × ℕ :=
  if 0 < p then trimRetreatGo l p (en - l).toNat en else (en, 0)

/-- Python slice `xs[:-m]`: for `m = 0` this is `xs[:0] = []`, otherwise
the first `length - m` elements. -/
def pyDropLast (m : ℕ) (xs : List ℤ) : List ℤ :=
  if m = 0 then [] else xs.take (xs.length - m)

/-- Number of leading samples dropped by the leading-trim loop of
`trim_record` for earliest bound `e`. -/
def leadClipCount (msr : TrimRecord) (e : ℤ) : ℕ :=
  (trimAdvance e (pyInt (10 ^ 9 / msr.samprate)) msr.starttime).2

/-- Number of trailing samples dropped by the trailing-trim loop of
`trim_record` for latest bound `l`. -/
def tailClipCount (msr : TrimRecord) (l : ℤ) : ℕ :=
  (trimRetreat l (pyInt (10 ^ 9 / msr.samprate)) msr.endtime).2

/-- Function `trim_record(msr, earliest, latest)` from
`examples/stream_timewindow.py`.  `none` models the bare `return` taken
for a record with no time coverage.  A bound of `some 0` is falsy in
Python (`if earliest and ...`), so it disables the corresponding trim,
exactly as in the source.  The trailing condition uses the *updated*
start time and the *original* end time, as in the source. -/
def trim_record (msr : TrimRecord) (earliest latest : Option ℤ) : Option TrimRecord :=
  if msr.samplecnt = 0 ∧ msr.samprate = 0 then none
  else
    let sample_period_ns := pyInt (10 ^ 9 / msr.samprate)
    let endtime := msr.endtime
    let lead :=
      match earliest with
      | some e =>
          if e ≠ 0 ∧ msr.starttime < e ∧ e ≤ endtime then
            let r := trimAdvance e sample_period_ns msr.starttime
            (r.1, msr.datasamples.drop r.2)
          else (msr.starttime, msr.datasamples)
      | none => (msr.starttime, msr.datasamples)
    let ds2 :=
      match latest with
      | some l =>
          if l ≠ 0 ∧ lead.1 ≤ l ∧ l < endtime then
            let r := trimRetreat l sample_period_ns endtime
            pyDropLast r.2 lead.2
          else lead.2
      | none => lead.2
    some { starttime := lead.1, samprate := msr.samprate,
           samplecnt := (ds2.length : ℤ), datasamples := ds2 }

/-- Per-record outcome of the `process_stream` loop of
`examples/stream_timewindow.py`: the record is skipped, written
unmodified, or written re-packed after trimming. -/
inductive StreamAction where
  | skipped
  | wroteOriginal
  | wroteTrimmed (r : TrimRecord)
  deriving Repr, DecidableEq

/-- Condition `args.earliest and msr.endtime < args.earliest` (a bound of 0 is
falsy in Python). -/
def earlySkipCond (msr : TrimRecord) : Option ℤ → Bool
  | some e => decide (e ≠ 0 ∧ msr.endtime < e)
  | none => false

/-- Condition `args.latest and msr.starttime > args.latest`. -/
def lateSkipCond (msr : TrimRecord) : Option ℤ → Bool
  | some l => decide (l ≠ 0 ∧ msr.starttime > l)
  | none => false

/-- Condition `args.earliest and msr.starttime < args.earliest <= msr.endtime`. -/
def overlapEarly (msr : TrimRecord) : Option ℤ → Bool
  | some e => decide (e ≠ 0 ∧ msr.starttime < e ∧ e ≤ msr.endtime)
  | none => false

/-- Condition `args.latest and msr.starttime <= args.latest < msr.endtime`. -/
def overlapLate (msr : TrimRecord) : Option ℤ → Bool
  | some l => decide (l ≠ 0 ∧ msr.starttime ≤ l ∧ l < msr.endtime)
  | none => false

/-- One iteration of the `process_stream` loop (lines 30–51 of
`examples/stream_timewindow.py`) for a single record: skip records
outside the window, trim records containing a bound, otherwise write the
original bytes.  `trim_record` returning `None` (falsy) falls back to the
original record, as in `repacked_record if repacked_record else
msr.record`. -/
def processRecord (msr : TrimRecord) (earliest latest : Option ℤ) : StreamAction :=
  if earlySkipCond msr earliest then .skipped
  else if lateSkipCond msr latest then .skipped
  else if overlapEarly msr earliest || overlapLate msr latest then
    match trim_record msr earliest latest with
    | some r => .wroteTrimmed r
    | none => .wroteOriginal
  else .wroteOriginal

end Mseedlib

namespace Mseedlib

/-! ## Theorems: C2 (end time) -/

/-- C2: for a record with at least one sample and a non-zero rate,
`endtime = starttime + round((samplecnt - 1) / effective_rate * 1e9)`,
the effective rate being `abs` of a negative stored rate; the 296-sample,
20 Hz record starting at 1267253400019539000 ends at 1267253414769539000;
zero-sample or zero-rate records have `endtime = starttime`. -/
theorem endtime_spec (starttime : ℤ) (samprate : ℚ) (samplecnt : ℤ)
    (h1 : 1 ≤ samplecnt) (h2 : samprate ≠ 0) :
    msr3_endtime starttime samprate samplecnt =
      starttime + round (((samplecnt : ℚ) - 1) / effectiveSampleRate samprate * 10 ^ 9) ∧
    msr3_endtime 1267253400019539000 20 296 = 1267253414769539000 ∧
    (∀ st : ℤ, ∀ r : ℚ, msr3_endtime st r 0 = st) ∧
    (∀ st n : ℤ, msr3_endtime st 0 n = st) := by
  refine ⟨?_, ?_, ?_, ?_⟩
  · have hpos : ¬(samplecnt ≤ 0 ∨ effectiveSampleRate samprate = 0) := by
      push_neg
      refine ⟨by omega, ?_⟩
      unfold effectiveSampleRate
      split
      · simpa using h2
      · exact h2
    simp [msr3_endtime, hpos]
  · have heff : effectiveSampleRate 20 = 20 := by norm_num [effectiveSampleRate]
    rw [msr3_endtime, if_neg]
    · have harg : (((296 : ℤ) : ℚ) - 1) / effectiveSampleRate 20 * 10 ^ 9 =
          ((14750000000 : ℤ) : ℚ) := by rw [heff]; norm_num
      rw [harg, round_intCast]
      norm_num
    · rw [heff]; norm_num
  · intro st r
    simp [msr3_endtime]
  · intro st n
    simp [msr3_endtime, effectiveSampleRate]

/-- Witness for `endtime_spec` at a concrete input. -/
theorem endtime_spec_witness :
    (1 : ℤ) ≤ 296 ∧ (20 : ℚ) ≠ 0 ∧
    msr3_endtime 1267253400019539000 20 296 = 1267253414769539000 :=
  ⟨by norm_num, by norm_num,
   (endtime_spec 1267253400019539000 20 296 (by norm_num) (by norm_num)).2.1⟩

/-! ## Theorems: C6 (header-only records are never trimmed) -/

/-- C6: a record with `samplecnt == 0` and `samprate == 0.0` (header-only,
no time coverage) is never trimmed: `trim_record` takes its bare-return
branch for every choice of window bounds, and the stream loop then either
skips the record or writes its original bytes unmodified — it never
writes a trimmed version. -/
theorem trim_record_no_coverage (msr : TrimRecord) (earliest latest : Option ℤ)
    (h1 : msr.samplecnt = 0) (h2 : msr.samprate = 0) :
    trim_record msr earliest latest = none ∧
    (processRecord msr earliest latest = .skipped ∨
     processRecord msr earliest latest = .wroteOriginal) := by
  have ht : trim_record msr earliest latest = none := by
    simp [trim_record, h1, h2]
  refine ⟨ht, ?_⟩
  unfold processRecord
  split
  · exact Or.inl rfl
  split
  · exact Or.inl rfl
  split
  · rw [ht]
    exact Or.inr rfl
  · exact Or.inr rfl

/-- Witness for `trim_record_no_coverage` at a concrete header-only
record and concrete bounds. -/
theorem trim_record_no_coverage_witness :
    (TrimRecord.mk 100 0 0 []).samplecnt = 0 ∧
    (TrimRecord.mk 100 0 0 []).samprate = 0 ∧
    (trim_record ⟨100, 0, 0, []⟩ (some 50) (some 200) = none ∧
     (processRecord ⟨100, 0, 0, []⟩ (some 50) (some 200) = .skipped ∨
      processRecord ⟨100, 0, 0, []⟩ (some 50) (some 200) = .wroteOriginal)) :=
  ⟨rfl, rfl, trim_record_no_coverage ⟨100, 0, 0, []⟩ (some 50) (some 200) rfl rfl⟩

/-! ## Theorems: C5 (trimming clips whole samples) -/

/-- Each iteration of the leading-trim loop adds the period to the start
time, so the final start time is the initial one plus count times the
period. -/
lemma trimAdvanceGo_fst (e p : ℤ) :
    ∀ (fuel : ℕ) (s : ℤ),
      (trimAdvanceGo e p fuel s).1 = s + ((trimAdvanceGo e p fuel s).2 : ℤ) * p := by
  intro fuel
  induction fuel with
  | zero => intro s; simp [trimAdvanceGo]
  | succ n ih =>
      intro s
      simp only [trimAdvanceGo]
      split
      · simp only
        rw [ih (s + p)]
        push_cast
        ring
      · simp

/-- The leading-trim loop advances the start time by exactly
count · period. -/
lemma trimAdvance_fst (e p s : ℤ) :
    (trimAdvance e p s).1 = s + ((trimAdvance e p s).2 : ℤ) * p := by
  unfold trimAdvance
  split
  · exact trimAdvanceGo_fst e p _ s
  · simp

/-- With a positive period, the trailing-trim loop runs at least once
when `latest < endtime`. -/
lemma trimRetreat_count_pos (l p en : ℤ) (hp : 0 < p) (h : l < en) :
    1 ≤ (trimRetreat l p en).2 := by
  unfold trimRetreat
  rw [if_pos hp]
  have hfuel : (en - l).toNat = (en - l - 1).toNat + 1 := by omega
  rw [hfuel]
  simp only [trimRetreatGo]
  rw [if_pos h]
  omega

/-- C5 (amended): with a positive rate and a positive sample period
`int(1e9 / rate)` (Python `int` truncation, not rounding), a window whose
earliest bound clips `k = leadClipCount` leading samples yields a record
with `samplecnt` reduced by exactly `k` and `starttime` advanced by
exactly `k * int(1e9 / rate)`; symmetrically, a latest bound inside the
coverage drops exactly `m = tailClipCount` trailing samples (while
`endtime > latest`) and leaves `starttime` unchanged.  (The claim's
`round(1e9 / rate)` period is refuted by `trim_clip_counterexample`;
truncation is what the code computes.) -/
theorem trim_clip_exact
    (msr : TrimRecord) (e : ℤ)
    (hrate : 0 < msr.samprate)
    (he : e ≠ 0 ∧ msr.starttime < e ∧ e ≤ msr.endtime)
    (hlen : (msr.datasamples.length : ℤ) = msr.samplecnt)
    (hk : leadClipCount msr e ≤ msr.datasamples.length)
    (msr2 : TrimRecord) (l : ℤ)
    (hrate2 : 0 < msr2.samprate)
    (hp2 : 0 < pyInt (10 ^ 9 / msr2.samprate))
    (hl : l ≠ 0 ∧ msr2.starttime ≤ l ∧ l < msr2.endtime)
    (hlen2 : (msr2.datasamples.length : ℤ) = msr2.samplecnt)
    (hm : tailClipCount msr2 l ≤ msr2.datasamples.length) :
    trim_record msr (some e) none =
      some { starttime := msr.starttime +
               (leadClipCount msr e : ℤ) * pyInt (10 ^ 9 / msr.samprate),
             samprate := msr.samprate,
             samplecnt := msr.samplecnt - (leadClipCount msr e : ℤ),
             datasamples := msr.datasamples.drop (leadClipCount msr e) } ∧
    trim_record msr2 none (some l) =
      some { starttime := msr2.starttime,
             samprate := msr2.samprate,
             samplecnt := msr2.samplecnt - (tailClipCount msr2 l : ℤ),
             datasamples := msr2.datasamples.take
               (msr2.datasamples.length - tailClipCount msr2 l) } := by
  constructor
  · unfold trim_record
    rw [if_neg (by rintro ⟨-, h0⟩; exact absurd h0 (ne_of_gt hrate))]
    simp only
    rw [if_pos he]
    have hfst := trimAdvance_fst e (pyInt (10 ^ 9 / msr.samprate)) msr.starttime
    have hcnt : (((msr.datasamples.drop (leadClipCount msr e)).length : ℤ)) =
        msr.samplecnt - (leadClipCount msr e : ℤ) := by
      rw [List.length_drop, Nat.cast_sub hk, hlen]
    exact congrArg some (TrimRecord.ext hfst rfl hcnt rfl)
  · unfold trim_record
    rw [if_neg (by rintro ⟨-, h0⟩; exact absurd h0 (ne_of_gt hrate2))]
    simp only
    rw [if_pos hl]
    have hmpos : 1 ≤ tailClipCount msr2 l :=
      trimRetreat_count_pos _ _ _ hp2 hl.2.2
    have hds : pyDropLast (tailClipCount msr2 l) msr2.datasamples =
        msr2.datasamples.take (msr2.datasamples.length - tailClipCount msr2 l) := by
      rw [pyDropLast, if_neg (by omega)]
    have hcnt : ((pyDropLast (tailClipCount msr2 l) msr2.datasamples).length : ℤ) =
        msr2.samplecnt - (tailClipCount msr2 l : ℤ) := by
      rw [hds, List.length_take, min_eq_left (Nat.sub_le _ _), Nat.cast_sub hm, hlen2]
    exact congrArg some (TrimRecord.ext rfl rfl hcnt hds)

/-- Witness for `trim_clip_exact`: a 4-sample 20 Hz record starting at 0
(period 5·10⁷ ns) trimmed with earliest bound 6·10⁷ drops 2 leading
samples; the same record trimmed with latest bound 9·10⁷ drops 2 trailing
samples. -/
theorem trim_clip_exact_witness :
    (0 : ℚ) < 20 ∧
    leadClipCount ⟨0, 20, 4, [10, 20, 30, 40]⟩ 60000000 = 2 ∧
    tailClipCount ⟨0, 20, 4, [1, 2, 3, 4]⟩ 90000000 = 2 ∧
    trim_record ⟨0, 20, 4, [10, 20, 30, 40]⟩ (some 60000000) none =
      some ⟨100000000, 20, 2, [30, 40]⟩ ∧
    trim_record ⟨0, 20, 4, [1, 2, 3, 4]⟩ none (some 90000000) =
      some ⟨0, 20, 2, [1, 2]⟩ := by
  have hp : pyInt (10 ^ 9 / (20 : ℚ)) = 50000000 := by norm_num [pyInt]
  have hend : TrimRecord.endtime ⟨0, 20, 4, [10, 20, 30, 40]⟩ = 150000000 := by
    unfold TrimRecord.endtime msr3_endtime effectiveSampleRate
    rw [if_neg (by norm_num), if_neg (by norm_num)]
    rw [round_eq]
    norm_num
  have hend2 : TrimRecord.endtime ⟨0, 20, 4, [1, 2, 3, 4]⟩ = 150000000 := by
    unfold TrimRecord.endtime msr3_endtime effectiveSampleRate
    rw [if_neg (by norm_num), if_neg (by norm_num)]
    rw [round_eq]
    norm_num
  have hadv : trimAdvance 60000000 50000000 0 = (100000000, 2) := by decide
  have hret : trimRetreat 90000000 50000000 150000000 = (50000000, 2) := by decide
  have hkc : leadClipCount ⟨0, 20, 4, [10, 20, 30, 40]⟩ 60000000 = 2 := by
    unfold leadClipCount
    show (trimAdvance 60000000 (pyInt (10 ^ 9 / (20 : ℚ))) 0).2 = 2
    rw [hp, hadv]
  have hmc : tailClipCount ⟨0, 20, 4, [1, 2, 3, 4]⟩ 90000000 = 2 := by
    unfold tailClipCount
    show (trimRetreat 90000000 (pyInt (10 ^ 9 / (20 : ℚ)))
        (TrimRecord.endtime ⟨0, 20, 4, [1, 2, 3, 4]⟩)).2 = 2
    rw [hp, hend2, hret]
  have hmain := trim_clip_exact ⟨0, 20, 4, [10, 20, 30, 40]⟩ 60000000
    (by norm_num)
    (by refine ⟨by norm_num, by norm_num, ?_⟩; rw [hend]; norm_num)
    (by norm_num)
    (by rw [hkc]; norm_num)
    ⟨0, 20, 4, [1, 2, 3, 4]⟩ 90000000
    (by norm_num)
    (by show 0 < pyInt (10 ^ 9 / (20 : ℚ)); rw [hp]; norm_num)
    (by refine ⟨by norm_num, by norm_num, ?_⟩; rw [hend2]; norm_num)
    (by norm_num)
    (by rw [hmc]; norm_num)
  refine ⟨by norm_num, hkc, hmc, ?_, ?_⟩
  · rw [hmain.1]
    congr 1
    refine TrimRecord.ext ?_ rfl ?_ ?_
    · show (0 : ℤ) + (leadClipCount ⟨0, 20, 4, [10, 20, 30, 40]⟩ 60000000 : ℤ) *
          pyInt (10 ^ 9 / (20 : ℚ)) = 100000000
      rw [hkc, hp]; norm_num
    · show (4 : ℤ) - (leadClipCount ⟨0, 20, 4, [10, 20, 30, 40]⟩ 60000000 : ℤ) = 2
      rw [hkc]; norm_num
    · show List.drop (leadClipCount ⟨0, 20, 4, [10, 20, 30, 40]⟩ 60000000)
          [10, 20, 30, 40] = ([30, 40] : List ℤ)
      rw [hkc]
      rfl
  · rw [hmain.2]
    congr 1
    refine TrimRecord.ext rfl rfl ?_ ?_
    · show (4 : ℤ) - (tailClipCount ⟨0, 20, 4, [1, 2, 3, 4]⟩ 90000000 : ℤ) = 2
      rw [hmc]; norm_num
    · show List.take (4 - tailClipCount ⟨0, 20, 4, [1, 2, 3, 4]⟩ 90000000)
          [1, 2, 3, 4] = ([1, 2] : List ℤ)
      rw [hmc]
      rfl

/-- C5 counterexample: the claim computes the sample period as
`round(1e9 / rate)`, but the code computes `int(1e9 / rate)` (truncation).
For a 2-sample 6 Hz record starting at 0, trimming with earliest bound 1
clips one sample and advances the start time to `int(1e9/6) = 166666666`,
not `1 * round(1e9/6) = 166666667` as the claim states. -/
theorem trim_clip_counterexample :
    trim_record ⟨0, 6, 2, [10, 20]⟩ (some 1) none =
      some ⟨166666666, 6, 1, [20]⟩ ∧
    leadClipCount ⟨0, 6, 2, [10, 20]⟩ 1 = 1 ∧
    (166666666 : ℤ) ≠
      0 + (1 : ℤ) * round ((10 : ℚ) ^ 9 / effectiveSampleRate 6) := by
  have hp : pyInt (10 ^ 9 / (6 : ℚ)) = 166666666 := by norm_num [pyInt]
  have hend : TrimRecord.endtime ⟨0, 6, 2, [10, 20]⟩ = 166666667 := by
    unfold TrimRecord.endtime msr3_endtime effectiveSampleRate
    rw [if_neg (by norm_num), if_neg (by norm_num)]
    rw [round_eq]
    norm_num
  have hadv : trimAdvance 1 166666666 0 = (166666666, 1) := by decide
  refine ⟨?_, ?_, ?_⟩
  · unfold trim_record
    rw [if_neg (by norm_num)]
    simp only
    rw [if_pos (by refine ⟨by norm_num, by norm_num, ?_⟩; rw [hend]; norm_num)]
    dsimp only
    rw [hp, hadv]
    rfl
  · unfold leadClipCount
    show (trimAdvance 1 (pyInt (10 ^ 9 / (6 : ℚ))) 0).2 = 1
    rw [hp, hadv]
  · have : round ((10 : ℚ) ^ 9 / effectiveSampleRate 6) = 166666667 := by
      unfold effectiveSampleRate
      rw [if_neg (by norm_num), round_eq]
      norm_num
    rw [this]
    norm_num

/-! ## Buffer reader (`mseedlib/msrecord_buffer_reader.py`) -/

/-- Outcome of the `msr3_parse` C call as seen by
`MSRecordBufferReader.read`: status `MS_NOERROR` (0) with the parsed
record's length, a positive status (record detected but not enough
data), or a negative error status. -/
inductive ParseResult where
  | noerror (record_length : ℕ)
  | detected (status : ℕ)
  | failed (status : ℤ)
  deriving Repr, DecidableEq

/-- Reader state of `MSRecordBufferReader`: the length of the source
buffer and the current read offset into it. -/
structure MSRecordBufferReader where
  sourceLen : ℕ
  source_offset : ℕ
  deriving Repr, DecidableEq

/-- Method `MSRecordBufferReader.read()`: returns `None` when 40 or fewer bytes
remain, otherwise parses at the current offset (the parse outcome of the
C library is abstracted as the function `parse` of the offset), advancing
the offset by the parsed record's length on success, ending iteration on
a positive status, and raising `MseedLibError` (the error status) on a
negative one. -/
def MSRecordBufferReader.read (parse : ℕ → ParseResult) (rd : MSRecordBufferReader) :
    Except ℤ (Option MSRecordBufferReader) :=
  let remaining_bytes := rd.sourceLen - rd.source_offset
  if remaining_bytes ≤ 40 then .ok none
  else
    match parse rd.source_offset with
    | .noerror rl => .ok (some { rd with source_offset := rd.source_offset + rl })
    | .detected _ => .ok none
    | .failed status => .error status

/-! ## Theorems: C10 (buffer reader termination and advancement) -/

/-- C10: `read()` returns `None` — never an error — whenever at most 40
bytes remain past the current offset; on a successful parse it advances
the offset by exactly the parsed record's length; and a
detected-but-truncated record (positive parse status) also ends iteration
with `None` rather than an error. -/
theorem buffer_reader_read_spec (parse : ℕ → ParseResult) (rd : MSRecordBufferReader) :
    (rd.sourceLen - rd.source_offset ≤ 40 →
       MSRecordBufferReader.read parse rd = .ok none) ∧
    (∀ rl : ℕ, 40 < rd.sourceLen - rd.source_offset →
       parse rd.source_offset = .noerror rl →
       MSRecordBufferReader.read parse rd =
         .ok (some { rd with source_offset := rd.source_offset + rl })) ∧
    (∀ s : ℕ, 40 < rd.sourceLen - rd.source_offset →
       parse rd.source_offset = .detected s →
       MSRecordBufferReader.read parse rd = .ok none) := by
  refine ⟨?_, ?_, ?_⟩
  · intro h
    unfold MSRecordBufferReader.read
    rw [if_pos h]
  · intro rl h hp
    unfold MSRecordBufferReader.read
    rw [if_neg (by omega), hp]
  · intro s h hp
    unfold MSRecordBufferReader.read
    rw [if_neg (by omega), hp]

/-- Witness for `buffer_reader_read_spec`: a 30-byte tail is silently
ignored; a successful 512-byte parse advances the offset from 0 to 512; a
detected-but-truncated record ends iteration. -/
theorem buffer_reader_read_spec_witness :
    MSRecordBufferReader.read (fun _ => .noerror 512) ⟨100, 70⟩ = .ok none ∧
    MSRecordBufferReader.read (fun _ => .noerror 512) ⟨1000, 0⟩ = .ok (some ⟨1000, 512⟩) ∧
    MSRecordBufferReader.read (fun _ => .detected 7) ⟨1000, 0⟩ = .ok none :=
  ⟨(buffer_reader_read_spec (fun _ => .noerror 512) ⟨100, 70⟩).1 (by norm_num),
   (buffer_reader_read_spec (fun _ => .noerror 512) ⟨1000, 0⟩).2.1 512 (by norm_num) rfl,
   (buffer_reader_read_spec (fun _ => .detected 7) ⟨1000, 0⟩).2.2 7 (by norm_num) rfl⟩

/-! ## Trace segment deferred decode (`MS3TraceSeg.unpack_recordlist`,
`src/mseedlib/mstracelist.py`) -/

/-- A trace segment as seen by `unpack_recordlist`: either a record
reference list (each entry decoding to that record's samples) or a
materialized sample buffer. -/
structure SegState where
  recordlist : Option (List (List ℤ))
  datasamples : Option (List ℤ)
  numsamples : ℤ
  deriving Repr, DecidableEq

/-- Method `MS3TraceSeg.unpack_recordlist()`: raises when no record list is
available, raises `"Data samples already unpacked"` when the segment
already holds a materialized buffer, and otherwise decodes the record
list into the segment's sample buffer.  The decode itself
(`mstl3_unpack_recordlist`) is in the C library; it is modelled from the
spec as the one-shot transition from the deferred reference list to the
materialized concatenation of the referenced records' samples, returning
the number of unpacked samples. -/
def unpack_recordlist (seg : SegState) : Except String (SegState × ℤ) :=
  match seg.recordlist with
  | none => .error "No record list available"
  | some rl =>
      if seg.datasamples ≠ none then .error "Data samples already unpacked"
      else
        .ok ({ seg with datasamples := some rl.flatten,
                        numsamples := (rl.flatten.length : ℤ) },
             (rl.flatten.length : ℤ))

/-! ## Theorems: C7 (unpack is one-shot) -/

/-- C7: for a segment holding a deferred record reference list and no
materialized buffer, the first `unpack_recordlist` call succeeds and
materializes the samples; a second call on the resulting segment raises
`"Data samples already unpacked"` instead of silently re-decoding, so at
most one of the two representations is ever consumed. -/
theorem unpack_recordlist_one_shot (seg : SegState) (rl : List (List ℤ))
    (hrl : seg.recordlist = some rl) (hds : seg.datasamples = none) :
    ∃ seg', unpack_recordlist seg = .ok (seg', (rl.flatten.length : ℤ)) ∧
      seg'.datasamples = some rl.flatten ∧
      unpack_recordlist seg' = .error "Data samples already unpacked" := by
  refine ⟨SegState.mk seg.recordlist (some rl.flatten) (rl.flatten.length : ℤ),
    ?_, rfl, ?_⟩
  · simp [unpack_recordlist, hrl, hds]
  · simp [unpack_recordlist, hrl]

/-- Witness for `unpack_recordlist_one_shot` on a concrete two-record
reference list. -/
theorem unpack_recordlist_one_shot_witness :
    (SegState.mk (some [[1, 2], [3]]) none 0).recordlist = some [[1, 2], [3]] ∧
    (SegState.mk (some [[1, 2], [3]]) none 0).datasamples = none ∧
    ∃ seg', unpack_recordlist ⟨some [[1, 2], [3]], none, 0⟩ =
        .ok (seg', (([[1, 2], [3]] : List (List ℤ)).flatten.length : ℤ)) ∧
      seg'.datasamples = some ([[1, 2], [3]] : List (List ℤ)).flatten ∧
      unpack_recordlist seg' = .error "Data samples already unpacked" :=
  ⟨rfl, rfl,
   unpack_recordlist_one_shot ⟨some [[1, 2], [3]], none, 0⟩ [[1, 2], [3]] rfl rfl⟩

/-! ## Trace-list construction and the `split_version` flag
(`src/src/mseedlib/mstracelist.py`) -/

/-- The attributes set by `MSTraceList.__init__` that are later handed to
the C reader.  Note the source: `self.split_version = ct.c_int8(0)` —
initialized to 0 regardless of the constructor's `split_version`
argument. -/
structure PyMSTraceList where
  parse_flags : ℕ
  record_list : ℤ
  split_version : ℤ
  deriving Repr, DecidableEq

/-- Constructor `MSTraceList.__init__(..., split_version=...)`: the argument is only
forwarded to `read_file`; the attribute is hard-coded to 0. -/
def MSTraceList_init (split_version : Bool) : PyMSTraceList :=
  { parse_flags := 0, record_list := 0, split_version := 0 }

/-- The `splitversion` value `MSTraceList.read_file` passes to the C
reader `ms3_readtracelist_selection`: it passes `self.split_version` and
never reads its own `split_version` parameter. -/
def read_file_c_splitversion (st : PyMSTraceList) (split_version : Bool) : ℤ :=
  st.split_version

/-- Modelled from the spec: the uniqueness key under which the C
trace-list reader groups records into TraceIDs — `(sourceid,
publication version)` when its `splitversion` argument is non-zero, and
`(sourceid)` alone (version component fixed) otherwise
(`ms3_readtracelist_selection` is in the bundled libmseed C library,
absent from the Python sources). -/
def traceKey (splitversion : ℤ) (sid : String) (pubversion : ℕ) : String × ℕ :=
  if splitversion ≠ 0 then (sid, pubversion) else (sid, 0)

/-- Number of distinct TraceIDs produced for a record stream of
`(sourceid, pubversion)` pairs under a given `splitversion` flag. -/
def numTraceIDs (splitversion : ℤ) (records : List (String × ℕ)) : ℕ :=
  ((records.map (fun r => traceKey splitversion r.1 r.2)).dedup).length

/-- Pipeline `MSTraceList(file, split_version=...)` end to end: the constructor's
attributes feed `read_file`, whose C call groups the file's records. -/
def readPipelineNumTraceIDs (split_version : Bool)
    (records : List (String × ℕ)) : ℕ :=
  numTraceIDs (read_file_c_splitversion (MSTraceList_init split_version) split_version)
    records

/-! ## Theorems: C4 (the `split_version` argument is ignored) -/

/-- C4 (code evaluation at the failing input): the `split_version`
argument of `MSTraceList.__init__`/`read_file` never reaches the C
reader — `self.split_version` is hard-coded to 0 — so two records
differing only in publication version always land in one TraceID, even
with `split_version=True`; with the flag actually applied (as the claim
describes) they would form two. -/
theorem split_version_ignored :
    (∀ (b : Bool) (st : PyMSTraceList), read_file_c_splitversion st b = st.split_version) ∧
    (∀ b : Bool, (MSTraceList_init b).split_version = 0) ∧
    readPipelineNumTraceIDs true
      [("FDSN:XX_TEST__B_S_X", 1), ("FDSN:XX_TEST__B_S_X", 2)] = 1 ∧
    numTraceIDs 1 [("FDSN:XX_TEST__B_S_X", 1), ("FDSN:XX_TEST__B_S_X", 2)] = 2 := by
  refine ⟨fun _ _ => rfl, fun _ => rfl, ?_, ?_⟩
  · decide
  · decide

/-! ## Version-2 sequence number retention (`MS3Record.pack`,
`src/src/mseedlib/msrecord.py` lines 517–529) -/

/-- A JSON value, as far as the extra-header manipulation needs it. -/
inductive JVal where
  | jnum (n : ℤ)
  | jstr (s : String)
  | jobj (fields : List (String × JVal))

/-- Lookup in a JSON object (Python `dict` access by key). -/
def lookupKey (k : String) : List (String × JVal) → Option JVal
  | [] => none
  | kv :: rest => if kv.1 = k then some kv.2 else lookupKey k rest

/-- Python `dict` item assignment: replaces an existing key in place,
appends a missing key at the end. -/
def setKey (k : String) (v : JVal) : List (String × JVal) → List (String × JVal)
  | [] => [(k, v)]
  | kv :: rest => if kv.1 = k then (k, v) :: rest else kv :: setKey k v rest

/-- Statement `extra_headers.setdefault("FDSN", {})["Sequence"] = sequence_number`:
`none` models the `TypeError` Python would raise when an existing
`"FDSN"` value is not an object. -/
def setFDSNSequence (hdrs : List (String × JVal)) (n : ℤ) :
    Option (List (String × JVal)) :=
  match lookupKey "FDSN" hdrs with
  | none => some (hdrs ++ [("FDSN", .jobj [("Sequence", .jnum n)])])
  | some (.jobj f) => some (setKey "FDSN" (.jobj (setKey "Sequence" (.jnum n) f)) hdrs)
  | some _ => none

/-- The record state `MS3Record.pack` consults for sequence retention:
format version, raw parsed record bytes (if any), and the parsed extra
headers (`none` when `extralength == 0`). -/
structure PackRecordState where
  formatversion : ℕ
  record : Option (List ℕ)
  extra : Option (List (String × JVal))

/-- Value `int(self._record[0:6].decode("utf-8"))` for six ASCII digits. -/
def seqValue (bs : List ℕ) : ℤ :=
  (((bs.take 6).foldl (fun acc b => acc * 10 + (b - 48)) 0 : ℕ) : ℤ)

/-- The fields of the old `"FDSN"` object, treating a missing header set
or missing/non-object `"FDSN"` entry as empty. -/
def oldFDSNFields (msr : PackRecordState) : List (String × JVal) :=
  match msr.extra with
  | some hdrs =>
      match lookupKey "FDSN" hdrs with
      | some (.jobj f) => f
      | _ => []
  | none => []

/-- Lines 517–529 of `MS3Record.pack`: when the record is a parsed
miniSEED v2 record, its first six bytes (ASCII digits) are stored as
`extra["FDSN"]["Sequence"]` before packing — merged into existing extra
headers when `extralength > 0`, otherwise as a fresh header set.  `none`
models the Python exceptions (non-digit sequence bytes, non-object
`"FDSN"`). -/
def packRetainSequence (msr : PackRecordState) : Option PackRecordState :=
  if msr.formatversion = 2 then
    match msr.record with
    | some bs =>
        if 6 ≤ bs.length ∧ (bs.take 6).all (fun b => 48 ≤ b && b ≤ 57) then
          match msr.extra with
          | some hdrs =>
              (setFDSNSequence hdrs (seqValue bs)).map
                (fun h => { msr with extra := some h })
          | none =>
              some { msr with
                extra := some [("FDSN", JVal.jobj [("Sequence", JVal.jnum (seqValue bs))])] }
        else none
    | none => some msr
  else some msr

/-- Lemma: `lookupKey` finds the value just written by `setKey`. -/
lemma lookupKey_setKey_self (k : String) (v : JVal) :
    ∀ l : List (String × JVal), lookupKey k (setKey k v l) = some v := by
  intro l
  induction l with
  | nil => rw [setKey, lookupKey, if_pos rfl]
  | cons kv rest ih =>
      rw [setKey]
      by_cases h : kv.1 = k
      · rw [if_pos h, lookupKey, if_pos rfl]
      · rw [if_neg h, lookupKey, if_neg h, ih]

/-- Lemma: `setKey` leaves every other key's value unchanged. -/
lemma lookupKey_setKey_ne (k k' : String) (v : JVal) (hne : k' ≠ k) :
    ∀ l : List (String × JVal), lookupKey k' (setKey k v l) = lookupKey k' l := by
  intro l
  induction l with
  | nil => simp [setKey, lookupKey, Ne.symm hne]
  | cons kv rest ih =>
      by_cases h : kv.1 = k
      · simp [setKey, lookupKey, h, Ne.symm hne]
      · simp [setKey, lookupKey, h, ih]

/-- Appending a fresh key makes it found when it was absent before. -/
lemma lookupKey_append_self (k : String) (v : JVal) :
    ∀ l : List (String × JVal), lookupKey k l = none →
      lookupKey k (l ++ [(k, v)]) = some v := by
  intro l
  induction l with
  | nil => intro _; rw [List.nil_append, lookupKey, if_pos rfl]
  | cons kv rest ih =>
      intro h
      rw [lookupKey] at h
      by_cases hk : kv.1 = k
      · rw [if_pos hk] at h; exact absurd h (by simp)
      · rw [if_neg hk] at h
        simp [lookupKey, hk, ih h]

/-- Appending an entry for another key leaves a lookup unchanged. -/
lemma lookupKey_append_ne (k k' : String) (v : JVal) (hne : k' ≠ k) :
    ∀ l : List (String × JVal), lookupKey k' (l ++ [(k, v)]) = lookupKey k' l := by
  intro l
  induction l with
  | nil => simp [lookupKey, Ne.symm hne]
  | cons kv rest ih => simp [lookupKey, ih]

/-! ## Theorems: C8 (v2 sequence number round-trips through extra
headers) -/

/-- C8: re-packing a record parsed from miniSEED v2 stores the 6-digit
ASCII sequence number from the record's first six bytes under
`{"FDSN":{"Sequence": N}}` in the extra headers, merging with existing
headers: every other top-level key and every other `"FDSN"` sub-key keeps
its previous value. -/
theorem pack_v2_sequence (msr : PackRecordState) (bs : List ℕ)
    (h2 : msr.formatversion = 2)
    (hb : msr.record = some bs)
    (hd : 6 ≤ bs.length ∧ (bs.take 6).all (fun b => 48 ≤ b && b ≤ 57) = true)
    (hobj : ∀ hdrs, msr.extra = some hdrs →
      (lookupKey "FDSN" hdrs = none ∨ ∃ f, lookupKey "FDSN" hdrs = some (.jobj f))) :
    ∃ msr' hdrs' f,
      packRetainSequence msr = some msr' ∧
      msr'.extra = some hdrs' ∧
      lookupKey "FDSN" hdrs' = some (.jobj f) ∧
      lookupKey "Sequence" f = some (.jnum (seqValue bs)) ∧
      (∀ k, k ≠ "FDSN" → lookupKey k hdrs' = lookupKey k (msr.extra.getD [])) ∧
      (∀ k, k ≠ "Sequence" → lookupKey k f = lookupKey k (oldFDSNFields msr)) := by
  rcases hex : msr.extra with _ | hdrs
  · refine ⟨PackRecordState.mk msr.formatversion msr.record
        (some [("FDSN", JVal.jobj [("Sequence", JVal.jnum (seqValue bs))])]),
      [("FDSN", JVal.jobj [("Sequence", JVal.jnum (seqValue bs))])],
      [("Sequence", JVal.jnum (seqValue bs))], ?_, rfl, ?_, ?_, ?_, ?_⟩
    · simp [packRetainSequence, h2, hb, hex, hd]
    · rw [lookupKey, if_pos rfl]
    · rw [lookupKey, if_pos rfl]
    · intro k hk
      simp [lookupKey, Ne.symm hk]
    · intro k hk
      have hold : oldFDSNFields msr = [] := by simp [oldFDSNFields, hex]
      rw [hold]
      simp [lookupKey, Ne.symm hk]
  · rcases hobj hdrs hex with hnone | ⟨f0, hf0⟩
    · refine ⟨PackRecordState.mk msr.formatversion msr.record
          (some (hdrs ++ [("FDSN", JVal.jobj [("Sequence", JVal.jnum (seqValue bs))])])),
        hdrs ++ [("FDSN", JVal.jobj [("Sequence", JVal.jnum (seqValue bs))])],
        [("Sequence", JVal.jnum (seqValue bs))], ?_, rfl, ?_, ?_, ?_, ?_⟩
      · simp [packRetainSequence, setFDSNSequence, h2, hb, hex, hnone, hd]
      · exact lookupKey_append_self _ _ hdrs hnone
      · rw [lookupKey, if_pos rfl]
      · intro k hk
        simp only [Option.getD_some]
        exact lookupKey_append_ne _ _ _ hk hdrs
      · intro k hk
        have hold : oldFDSNFields msr = [] := by
          simp [oldFDSNFields, hex, hnone]
        rw [hold]
        simp [lookupKey, Ne.symm hk]
    · refine ⟨PackRecordState.mk msr.formatversion msr.record
          (some (setKey "FDSN" (.jobj (setKey "Sequence" (.jnum (seqValue bs)) f0)) hdrs)),
        setKey "FDSN" (.jobj (setKey "Sequence" (.jnum (seqValue bs)) f0)) hdrs,
        setKey "Sequence" (.jnum (seqValue bs)) f0, ?_, rfl, ?_, ?_, ?_, ?_⟩
      · simp [packRetainSequence, setFDSNSequence, h2, hb, hex, hf0, hd]
      · exact lookupKey_setKey_self _ _ hdrs
      · exact lookupKey_setKey_self _ _ f0
      · intro k hk
        simp only [Option.getD_some]
        exact lookupKey_setKey_ne _ _ _ hk hdrs
      · intro k hk
        have hold : oldFDSNFields msr = f0 := by
          simp [oldFDSNFields, hex, hf0]
        rw [hold]
        exact lookupKey_setKey_ne _ _ _ hk f0

/-- Witness for `pack_v2_sequence`: a v2 record with sequence bytes
`"000452"` and existing headers `{"FDSN":{"Time":100},"Other":"x"}`. -/
theorem pack_v2_sequence_witness :
    (PackRecordState.mk 2 (some [48, 48, 48, 52, 53, 50])
        (some [("FDSN", .jobj [("Time", .jnum 100)]), ("Other", .jstr "x")])).formatversion
      = 2 ∧
    ∃ msr' hdrs' f,
      packRetainSequence
          ⟨2, some [48, 48, 48, 52, 53, 50],
           some [("FDSN", .jobj [("Time", .jnum 100)]), ("Other", .jstr "x")]⟩ =
        some msr' ∧
      msr'.extra = some hdrs' ∧
      lookupKey "FDSN" hdrs' = some (.jobj f) ∧
      lookupKey "Sequence" f = some (.jnum (seqValue [48, 48, 48, 52, 53, 50])) ∧
      (∀ k, k ≠ "FDSN" → lookupKey k hdrs' =
        lookupKey k ((PackRecordState.mk 2 (some [48, 48, 48, 52, 53, 50])
          (some [("FDSN", .jobj [("Time", .jnum 100)]),
                 ("Other", .jstr "x")])).extra.getD [])) ∧
      (∀ k, k ≠ "Sequence" → lookupKey k f =
        lookupKey k (oldFDSNFields ⟨2, some [48, 48, 48, 52, 53, 50],
          some [("FDSN", .jobj [("Time", .jnum 100)]), ("Other", .jstr "x")]⟩)) := by
  refine ⟨rfl, ?_⟩
  exact pack_v2_sequence
    ⟨2, some [48, 48, 48, 52, 53, 50],
     some [("FDSN", .jobj [("Time", .jnum 100)]), ("Other", .jstr "x")]⟩
    [48, 48, 48, 52, 53, 50] rfl rfl ⟨by norm_num, by rfl⟩
    (by rintro hdrs h
        cases h
        right
        exact ⟨[("Time", .jnum 100)], by rw [lookupKey, if_pos rfl]⟩)

/-! ## `MS3Record.pack` field restoration and caller-buffer safety
(`src/mseedlib/msrecord.py` lines 358–423) -/

/-- Flag `MSF_FLUSHDATA` (definitions.py): pack all available data even if the
final record would not be filled. -/
def MSF_FLUSHDATA : ℕ := 0x0040

/-- A heap of sample buffers, keyed by id: models the ctypes arrays the C
layer can reach through pointers. -/
def memLookup (mem : List (ℕ × List ℤ)) (i : ℕ) : Option (List ℤ) :=
  match mem with
  | [] => none
  | b :: rest => if b.1 = i then some b.2 else memLookup rest i

/-- A buffer id unused by the heap (one past the maximum id). -/
def freshId (mem : List (ℕ × List ℤ)) : ℕ :=
  (mem.map Prod.fst).foldr max 0 + 1

/-- The `MS3Record` fields that `pack` saves and restores, plus a stand-in
for the rest of the record header (which `pack` does not restore). -/
structure MsrPackFields where
  datasamplesId : Option ℕ
  sampletype : Option Char
  numsamples : ℤ
  samplecnt : ℤ
  headerRest : ℤ
  deriving Repr, DecidableEq

/-- Method `MS3Record.pack(datasamples, sampletype, flush_data)`: when a caller
sample sequence is given (by buffer id), its values are copied into a
freshly allocated ctypes array, the four record fields are pointed at the
copy, the C packer runs, and the four fields are restored to their saved
pre-call values before returning — also on the error path, where the
negative status becomes a raised `MseedLibError`.  The C call
`msr3_pack` is abstracted as the argument `cPack` (record fields, heap,
pack flags ↦ (packed samples, packed records), record fields, heap). -/
def msr_pack
    (cPack : MsrPackFields → List (ℕ × List ℤ) → ℕ →
      (ℤ × ℤ) × MsrPackFields × List (ℕ × List ℤ))
    (msr : MsrPackFields) (mem : List (ℕ × List ℤ))
    (datasamples : Option ℕ) (sampletype : Char) (flush_data : Bool) :
    Except ℤ (ℤ × ℤ) × MsrPackFields × List (ℕ × List ℤ) :=
  let pack_flags := if flush_data then MSF_FLUSHDATA else 0
  match datasamples with
  | none =>
      let r := cPack msr mem pack_flags
      (if r.1.2 < 0 then .error r.1.2 else .ok r.1, r.2.1, r.2.2)
  | some callerBuf =>
      let samples := (memLookup mem callerBuf).getD []
      let fresh := freshId mem
      let mem1 := (fresh, samples) :: mem
      let msr1 : MsrPackFields :=
        { msr with datasamplesId := some fresh, sampletype := some sampletype,
                   numsamples := (samples.length : ℤ),
                   samplecnt := (samples.length : ℤ) }
      let r := cPack msr1 mem1 pack_flags
      let msr2 : MsrPackFields :=
        { r.2.1 with datasamplesId := msr.datasamplesId,
                     sampletype := msr.sampletype,
                     numsamples := msr.numsamples,
                     samplecnt := msr.samplecnt }
      (if r.1.2 < 0 then .error r.1.2 else .ok r.1, msr2, r.2.2)

/-- Frame condition for the C packer: `msr3_pack` only touches memory
reachable from the record it is given, so every buffer other than the
record's own sample buffer is left unchanged. -/
def CPackFrame
    (cPack : MsrPackFields → List (ℕ × List ℤ) → ℕ →
      (ℤ × ℤ) × MsrPackFields × List (ℕ × List ℤ)) : Prop :=
  ∀ msr mem flags i, msr.datasamplesId ≠ some i →
    memLookup (cPack msr mem flags).2.2 i = memLookup mem i

/-- Every element of a `ℕ` list is bounded by its `foldr max 0`. -/
lemma le_foldr_max (l : List ℕ) (x : ℕ) (hx : x ∈ l) : x ≤ l.foldr max 0 := by
  induction l with
  | nil => cases hx
  | cons a t ih =>
      rcases List.mem_cons.mp hx with rfl | hx'
      · exact le_max_left _ _
      · exact le_trans (ih hx') (le_max_right _ _)

/-- A lookup misses when no entry carries the id. -/
lemma memLookup_eq_none (mem : List (ℕ × List ℤ)) (i : ℕ)
    (h : ∀ b ∈ mem, b.1 ≠ i) : memLookup mem i = none := by
  induction mem with
  | nil => rfl
  | cons b rest ih =>
      simp [memLookup, h b (by simp), ih (fun b' hb' => h b' (by simp [hb']))]

/-- The fresh id is absent from the heap. -/
lemma memLookup_freshId (mem : List (ℕ × List ℤ)) :
    memLookup mem (freshId mem) = none := by
  apply memLookup_eq_none
  intro b hb
  have hle : b.1 ≤ (mem.map Prod.fst).foldr max 0 :=
    le_foldr_max _ _ (List.mem_map_of_mem _ hb)
  unfold freshId
  omega

/-! ## Theorems: C9 (pack never mutates the caller's samples; fields are
restored) -/

/-- C9: for any C packer satisfying the frame condition, `pack` with a
caller-supplied sample buffer (any flush mode) leaves the caller's buffer
untouched — the samples are copied into a fresh buffer before the C call
— and returns the record with `datasamples`, `sampletype`, `numsamples`
and `samplecnt` restored to their pre-call values. -/
theorem pack_preserves_caller (cPack : MsrPackFields → List (ℕ × List ℤ) → ℕ →
      (ℤ × ℤ) × MsrPackFields × List (ℕ × List ℤ))
    (hframe : CPackFrame cPack)
    (msr : MsrPackFields) (mem : List (ℕ × List ℤ)) (callerBuf : ℕ)
    (callerData : List ℤ) (stype : Char) (flush : Bool)
    (hcb : memLookup mem callerBuf = some callerData) :
    memLookup (msr_pack cPack msr mem (some callerBuf) stype flush).2.2 callerBuf =
      some callerData ∧
    (msr_pack cPack msr mem (some callerBuf) stype flush).2.1.datasamplesId =
      msr.datasamplesId ∧
    (msr_pack cPack msr mem (some callerBuf) stype flush).2.1.sampletype =
      msr.sampletype ∧
    (msr_pack cPack msr mem (some callerBuf) stype flush).2.1.numsamples =
      msr.numsamples ∧
    (msr_pack cPack msr mem (some callerBuf) stype flush).2.1.samplecnt =
      msr.samplecnt := by
  have hne : callerBuf ≠ freshId mem := by
    intro h
    rw [h, memLookup_freshId] at hcb
    cases hcb
  refine ⟨?_, ?_, ?_, ?_, ?_⟩
  · unfold msr_pack
    dsimp only
    rw [hframe _ _ _ callerBuf (by simp [Ne.symm hne])]
    rw [memLookup, if_neg (Ne.symm hne), hcb]
  · rfl
  · rfl
  · rfl
  · rfl

/-- Witness for `pack_preserves_caller` with the identity C packer on a
one-buffer heap. -/
theorem pack_preserves_caller_witness :
    CPackFrame (fun msr mem _ => ((0, 0), msr, mem)) ∧
    memLookup [(1, [5, 6])] 1 = some [5, 6] ∧
    (memLookup (msr_pack (fun msr mem _ => ((0, 0), msr, mem))
        ⟨none, none, -1, -1, 7⟩ [(1, [5, 6])] (some 1) 'i' true).2.2 1 = some [5, 6] ∧
     (msr_pack (fun msr mem _ => ((0, 0), msr, mem))
        ⟨none, none, -1, -1, 7⟩ [(1, [5, 6])] (some 1) 'i' true).2.1.datasamplesId = none) := by
  have hframe : CPackFrame (fun msr mem _ => ((0, 0), msr, mem)) :=
    fun _ _ _ _ _ => rfl
  have h := pack_preserves_caller (fun msr mem _ => ((0, 0), msr, mem)) hframe
    ⟨none, none, -1, -1, 7⟩ [(1, [5, 6])] 1 [5, 6] 'i' true rfl
  exact ⟨hframe, rfl, h.1, h.2.1⟩

/-! ## Source identifier codec (`src/src/mseedlib/util.py`)

`sourceid2nslc` / `nslc2sourceid` delegate to `ms_sid2nslc_n` /
`ms_nslc2sid` in the C library, which are not part of the Python
sources; the codec is modelled from the spec (§3 canonical form and
§4.2). -/

/-- The `FDSN:` prefix of a canonical source identifier. -/
def fdsnColon : List Char := ['F', 'D', 'S', 'N', ':']

/-- Split a character list on the `_` delimiter (always at least one
field, fields possibly empty). -/
def splitU : List Char → List (List Char)
  | [] => [[]]
  | c :: rest =>
      match splitU rest with
      | [] => []
      | f :: fs => if c = '_' then [] :: f :: fs else (c :: f) :: fs

/-- Join fields with the `_` delimiter. -/
def joinU : List (List Char) → List Char
  | [] => []
  | [f] => f
  | f :: fs => f ++ '_' :: joinU fs

/-- Modelled from the spec: `nslc2sourceid(net, sta, loc, chan)` builds
the canonical `FDSN:NET_STA_LOC_BAND_SOURCE_SUBSOURCE` identifier,
expanding a 3-character SEED channel into single-character band, source
and subsource fields; each part is at most 10 characters, must not
contain the `_` delimiter, the location may be empty, and the other
parts must be non-empty.  `none` models the `ValueError` raised for
invalid codes (`ms_nslc2sid` is in the bundled libmseed C library,
absent from the Python sources). -/
def nslc2sourceid (net sta loc chan : List Char) : Option (List Char) :=
  if ('_' ∉ net ∧ '_' ∉ sta ∧ '_' ∉ loc ∧ '_' ∉ chan) ∧
     (net.length ≤ 10 ∧ sta.length ≤ 10 ∧ loc.length ≤ 10 ∧ chan.length ≤ 10) ∧
     (net ≠ [] ∧ sta ≠ [] ∧ chan ≠ []) then
    some (fdsnColon ++ joinU ([net, sta, loc] ++
      (if chan.length = 3 then chan.map (fun c => [c]) else [chan])))
  else none

/-- Modelled from the spec: `sourceid2nslc(sid)` strips the `FDSN:`
prefix and splits on `_`; a 6-field identifier collapses band, source and
subsource back into one channel code, a 4-field identifier is taken
as-is; anything else is invalid.  `none` models the `ValueError`
(`ms_sid2nslc_n` is in the bundled libmseed C library, absent from the
Python sources). -/
def sourceid2nslc (sid : List Char) :
    Option (List Char × List Char × List Char × List Char) :=
  if sid.take 5 = fdsnColon then
    match splitU (sid.drop 5) with
    | [n, s, l, c] => some (n, s, l, c)
    | [n, s, l, b, so, su] => some (n, s, l, b ++ so ++ su)
    | _ => none
  else none

/-- Lemma: `splitU` always yields at least one field. -/
lemma splitU_ne_nil : ∀ cs : List Char, splitU cs ≠ [] := by
  intro cs
  induction cs with
  | nil => simp [splitU]
  | cons c rest ih =>
      rcases h : splitU rest with _ | ⟨f, fs⟩
      · exact absurd h ih
      · simp only [splitU, h]
        split <;> simp

/-- A delimiter-free list splits into exactly itself. -/
lemma splitU_no_delim (f : List Char) (hf : '_' ∉ f) : splitU f = [f] := by
  induction f with
  | nil => rfl
  | cons c rest ih =>
      have hc : ¬(c = '_') := fun h => hf (by simp [h])
      have hrest : '_' ∉ rest := fun h => hf (List.mem_cons_of_mem _ h)
      simp [splitU, ih hrest, hc]

/-- Splitting past a delimiter-free field and one delimiter peels off
that field. -/
lemma splitU_append_delim (f : List Char) (hf : '_' ∉ f) (rest : List Char) :
    splitU (f ++ '_' :: rest) = f :: splitU rest := by
  induction f with
  | nil =>
      rcases h : splitU rest with _ | ⟨g, gs⟩
      · exact absurd h (splitU_ne_nil rest)
      · simp [splitU, h]
  | cons c restf ih =>
      have hc : ¬(c = '_') := fun h => hf (by simp [h])
      have hrestf : '_' ∉ restf := fun h => hf (List.mem_cons_of_mem _ h)
      simp [splitU, ih hrestf, hc]

/-- Splitting inverts joining for delimiter-free fields. -/
lemma splitU_joinU : ∀ parts : List (List Char), parts ≠ [] →
    (∀ p ∈ parts, '_' ∉ p) → splitU (joinU parts) = parts := by
  intro parts
  induction parts with
  | nil => intro h; exact absurd rfl h
  | cons f fs ih =>
      intro _ hall
      cases fs with
      | nil => exact splitU_no_delim f (hall f (by simp))
      | cons g gs =>
          have hj : joinU (f :: g :: gs) = f ++ '_' :: joinU (g :: gs) := rfl
          rw [hj, splitU_append_delim f (hall f (by simp)),
            ih (by simp) (fun p hp => hall p (by simp [hp]))]

/-! ## Theorems: C3 (source identifier round trip) -/

/-- C3: every identifier produced by `nslc2sourceid` from valid parts
(including an empty location) decodes with `sourceid2nslc`, and
re-encoding the decoded parts returns the identical identifier. -/
theorem sourceid_round_trip (net sta loc chan sid : List Char)
    (h : nslc2sourceid net sta loc chan = some sid) :
    ∃ n s l c, sourceid2nslc sid = some (n, s, l, c) ∧
      nslc2sourceid n s l c = some sid := by
  by_cases hv : ('_' ∉ net ∧ '_' ∉ sta ∧ '_' ∉ loc ∧ '_' ∉ chan) ∧
      (net.length ≤ 10 ∧ sta.length ≤ 10 ∧ loc.length ≤ 10 ∧ chan.length ≤ 10) ∧
      (net ≠ [] ∧ sta ≠ [] ∧ chan ≠ [])
  swap
  · rw [nslc2sourceid, if_neg hv] at h
    cases h
  rw [nslc2sourceid, if_pos hv] at h
  obtain ⟨⟨hnet, hsta, hloc, hchan⟩, hlen, hne⟩ := hv
  by_cases hc3 : chan.length = 3
  · rw [if_pos hc3] at h
    have hsid := (Option.some.inj h).symm
    obtain ⟨c1, c2, c3, rfl⟩ := List.length_eq_three.mp hc3
    simp only [List.mem_cons, List.not_mem_nil, or_false] at hchan
    push_neg at hchan
    refine ⟨net, sta, loc, [c1, c2, c3], ?_, ?_⟩
    · unfold sourceid2nslc
      rw [hsid, List.take_left' (by rfl), if_pos rfl, List.drop_left' (by rfl)]
      have hlist : ([net, sta, loc] ++ [c1, c2, c3].map (fun c => [c])) =
          [net, sta, loc, [c1], [c2], [c3]] := by simp
      rw [hlist]
      have hsplit : splitU (joinU [net, sta, loc, [c1], [c2], [c3]]) =
          [net, sta, loc, [c1], [c2], [c3]] := by
        refine splitU_joinU _ (by simp) ?_
        intro p hp
        simp only [List.mem_cons, List.not_mem_nil, or_false] at hp
        rcases hp with rfl | rfl | rfl | rfl | rfl | rfl
        · exact hnet
        · exact hsta
        · exact hloc
        · simpa using hchan.1
        · simpa using hchan.2.1
        · simpa using hchan.2.2
      rw [hsplit]
      rfl
    · unfold nslc2sourceid
      rw [if_pos ⟨⟨hnet, hsta, hloc, by simpa using hchan⟩, hlen, hne⟩, if_pos hc3, hsid]
  · rw [if_neg hc3] at h
    have hsid := (Option.some.inj h).symm
    refine ⟨net, sta, loc, chan, ?_, ?_⟩
    · unfold sourceid2nslc
      rw [hsid, List.take_left' (by rfl), if_pos rfl, List.drop_left' (by rfl)]
      have hlist : ([net, sta, loc] ++ [chan]) = [net, sta, loc, chan] := by simp
      rw [hlist]
      have hsplit : splitU (joinU [net, sta, loc, chan]) = [net, sta, loc, chan] := by
        refine splitU_joinU _ (by simp) ?_
        intro p hp
        simp only [List.mem_cons, List.not_mem_nil, or_false] at hp
        rcases hp with rfl | rfl | rfl | rfl
        · exact hnet
        · exact hsta
        · exact hloc
        · exact hchan
      rw [hsplit]
    · unfold nslc2sourceid
      rw [if_pos ⟨⟨hnet, hsta, hloc, hchan⟩, hlen, hne⟩, if_neg hc3, hsid]

/-- Witness for `sourceid_round_trip`: parts `("XX", "TEST", "", "BSX")`
encode to `FDSN:XX_TEST__B_S_X` (empty location between delimiters) and
round-trip. -/
theorem sourceid_round_trip_witness :
    nslc2sourceid ['X', 'X'] ['T', 'E', 'S', 'T'] [] ['B', 'S', 'X'] =
      some ("FDSN:XX_TEST__B_S_X".toList) ∧
    ∃ n s l c, sourceid2nslc ("FDSN:XX_TEST__B_S_X".toList) = some (n, s, l, c) ∧
      nslc2sourceid n s l c = some ("FDSN:XX_TEST__B_S_X".toList) := by
  have h : nslc2sourceid ['X', 'X'] ['T', 'E', 'S', 'T'] [] ['B', 'S', 'X'] =
      some ("FDSN:XX_TEST__B_S_X".toList) := by decide
  exact ⟨h, sourceid_round_trip _ _ _ _ _ h⟩

/-! ## Streaming packer (spec §4.5)

`MSTraceList.pack` delegates to `mstl3_pack` in the C library, which is
not part of the Python sources; the per-channel chunking is modelled
from the spec: with `flush=false` only whole records are emitted and the
remainder stays buffered, with `flush=true` a final possibly undersized
record is emitted. -/

/-- Modelled from the spec: full-record chunking, with an explicit fuel
bound (the list length bounds the number of records, since each record
consumes `spr ≥ 1` samples). -/
def chunksGo (spr : ℕ) : ℕ → List ℤ → List (List ℤ)
  | 0, _ => []
  | fuel + 1, l =>
      if 0 < spr ∧ spr ≤ l.length then l.take spr :: chunksGo spr fuel (l.drop spr)
      else []

/-- The full records (of `spr` samples each) at the front of `l`. -/
def chunksF (spr : ℕ) (l : List ℤ) : List (List ℤ) := chunksGo spr l.length l

/-- Companion of `chunksGo` computing the leftover tail. -/
def remGo (spr : ℕ) : ℕ → List ℤ → List ℤ
  | 0, l => l
  | fuel + 1, l =>
      if 0 < spr ∧ spr ≤ l.length then remGo spr fuel (l.drop spr) else l

/-- The unconsumed sample tail after removing all full records. -/
def remF (spr : ℕ) (l : List ℤ) : List ℤ := remGo spr l.length l

/-- All records of `l`, including a final undersized one (flush mode). -/
def chunksAll (spr : ℕ) (l : List ℤ) : List (List ℤ) :=
  chunksF spr l ++ (if remF spr l = [] then [] else [remF spr l])

/-- Lemma: `chunksGo` does not depend on the fuel once it covers the length. -/
lemma chunksGo_fuel (spr : ℕ) :
    ∀ (f1 f2 : ℕ) (l : List ℤ), l.length ≤ f1 → l.length ≤ f2 →
      chunksGo spr f1 l = chunksGo spr f2 l := by
  intro f1
  induction f1 with
  | zero =>
      intro f2 l h1 _
      have hl : l = [] := List.eq_nil_of_length_eq_zero (by omega)
      subst hl
      cases f2 with
      | zero => rfl
      | succ m =>
          simp only [chunksGo, List.length_nil]
          rw [if_neg (by omega)]
  | succ n ih =>
      intro f2 l h1 h2
      cases f2 with
      | zero =>
          have hl : l = [] := List.eq_nil_of_length_eq_zero (by omega)
          subst hl
          simp only [chunksGo, List.length_nil]
          rw [if_neg (by omega)]
      | succ m =>
          simp only [chunksGo]
          by_cases hc : 0 < spr ∧ spr ≤ l.length
          · rw [if_pos hc, if_pos hc]
            have hd1 : (l.drop spr).length ≤ n := by rw [List.length_drop]; omega
            have hd2 : (l.drop spr).length ≤ m := by rw [List.length_drop]; omega
            rw [ih m (l.drop spr) hd1 hd2]
          · rw [if_neg hc, if_neg hc]

/-- Unfolding `chunksF` when a full record is available. -/
lemma chunksF_step (spr : ℕ) (h : 0 < spr) (l : List ℤ) (hl : spr ≤ l.length) :
    chunksF spr l = l.take spr :: chunksF spr (l.drop spr) := by
  unfold chunksF
  have h1 : l.length = (l.length - 1) + 1 := by omega
  rw [h1]
  simp only [chunksGo]
  rw [if_pos ⟨h, hl⟩]
  congr 1
  apply chunksGo_fuel
  · rw [List.length_drop]; omega
  · exact le_rfl

/-- Lemma: `chunksF` is empty when no full record fits. -/
lemma chunksF_short (spr : ℕ) (l : List ℤ) (hl : l.length < spr ∨ spr = 0) :
    chunksF spr l = [] := by
  unfold chunksF
  rcases hn : l.length with _ | n
  · rfl
  · simp only [chunksGo]
    rw [if_neg (by omega)]

/-- Lemma: `remGo` does not depend on the fuel once it covers the length. -/
lemma remGo_fuel (spr : ℕ) :
    ∀ (f1 f2 : ℕ) (l : List ℤ), l.length ≤ f1 → l.length ≤ f2 →
      remGo spr f1 l = remGo spr f2 l := by
  intro f1
  induction f1 with
  | zero =>
      intro f2 l h1 _
      have hl : l = [] := List.eq_nil_of_length_eq_zero (by omega)
      subst hl
      cases f2 with
      | zero => rfl
      | succ m =>
          simp only [remGo, List.length_nil]
          rw [if_neg (by omega)]
  | succ n ih =>
      intro f2 l h1 h2
      cases f2 with
      | zero =>
          have hl : l = [] := List.eq_nil_of_length_eq_zero (by omega)
          subst hl
          simp only [remGo, List.length_nil]
          rw [if_neg (by omega)]
      | succ m =>
          simp only [remGo]
          by_cases hc : 0 < spr ∧ spr ≤ l.length
          · rw [if_pos hc, if_pos hc]
            have hd1 : (l.drop spr).length ≤ n := by rw [List.length_drop]; omega
            have hd2 : (l.drop spr).length ≤ m := by rw [List.length_drop]; omega
            rw [ih m (l.drop spr) hd1 hd2]
          · rw [if_neg hc, if_neg hc]

/-- Unfolding `remF` when a full record is available. -/
lemma remF_step (spr : ℕ) (h : 0 < spr) (l : List ℤ) (hl : spr ≤ l.length) :
    remF spr l = remF spr (l.drop spr) := by
  unfold remF
  have h1 : l.length = (l.length - 1) + 1 := by omega
  rw [h1]
  simp only [remGo]
  rw [if_pos ⟨h, hl⟩]
  apply remGo_fuel
  · rw [List.length_drop]; omega
  · exact le_rfl

/-- Lemma: `remF` is the whole list when no full record fits. -/
lemma remF_short (spr : ℕ) (l : List ℤ) (hl : l.length < spr ∨ spr = 0) :
    remF spr l = l := by
  unfold remF
  rcases hn : l.length with _ | n
  · rfl
  · simp only [remGo]
    rw [if_neg (by omega)]

/-- The leftover tail is shorter than one record. -/
lemma remF_length_lt (spr : ℕ) (h : 0 < spr) :
    ∀ (n : ℕ) (l : List ℤ), l.length ≤ n → (remF spr l).length < spr := by
  intro n
  induction n with
  | zero =>
      intro l hl
      rw [remF_short spr l (Or.inl (by omega))]
      omega
  | succ n ih =>
      intro l hl
      by_cases hc : spr ≤ l.length
      · rw [remF_step spr h l hc]
        exact ih _ (by rw [List.length_drop]; omega)
      · rw [remF_short spr l (Or.inl (by omega))]
        omega

/-- The full records and the tail together are the original list. -/
lemma chunksF_flatten (spr : ℕ) (h : 0 < spr) :
    ∀ (n : ℕ) (l : List ℤ), l.length ≤ n →
      (chunksF spr l).flatten ++ remF spr l = l := by
  intro n
  induction n with
  | zero =>
      intro l hl
      have he : l = [] := List.eq_nil_of_length_eq_zero (by omega)
      subst he
      rw [chunksF_short spr [] (Or.inl h), remF_short spr [] (Or.inl h)]
      rfl
  | succ n ih =>
      intro l hl
      by_cases hc : spr ≤ l.length
      · rw [chunksF_step spr h l hc, remF_step spr h l hc,
          List.flatten_cons, List.append_assoc,
          ih _ (by rw [List.length_drop]; omega)]
        exact List.take_append_drop spr l
      · rw [chunksF_short spr l (Or.inl (by omega)),
          remF_short spr l (Or.inl (by omega))]
        rfl

/-- Chunking streams over appends: the full records of `x ++ y` are those
of `x` followed by those of `x`'s tail joined with `y`, and likewise for
the leftover tail. -/
lemma chunksF_append (spr : ℕ) (h : 0 < spr) :
    ∀ (n : ℕ) (x y : List ℤ), x.length ≤ n →
      chunksF spr (x ++ y) = chunksF spr x ++ chunksF spr (remF spr x ++ y) ∧
      remF spr (x ++ y) = remF spr (remF spr x ++ y) := by
  intro n
  induction n with
  | zero =>
      intro x y hx
      have he : x = [] := List.eq_nil_of_length_eq_zero (by omega)
      subst he
      rw [chunksF_short spr [] (Or.inl h), remF_short spr [] (Or.inl h)]
      simp
  | succ n ih =>
      intro x y hx
      by_cases hc : spr ≤ x.length
      · have hcxy : spr ≤ (x ++ y).length := by rw [List.length_append]; omega
        have htake : (x ++ y).take spr = x.take spr :=
          List.take_append_of_le_length hc
        have hdrop : (x ++ y).drop spr = x.drop spr ++ y :=
          List.drop_append_of_le_length hc
        have hdlen : (x.drop spr).length ≤ n := by rw [List.length_drop]; omega
        constructor
        · rw [chunksF_step spr h _ hcxy, htake, hdrop,
            chunksF_step spr h x hc, remF_step spr h x hc,
            (ih (x.drop spr) y hdlen).1]
          rfl
        · rw [remF_step spr h _ hcxy, hdrop, remF_step spr h x hc]
          exact (ih (x.drop spr) y hdlen).2
      · constructor
        · rw [chunksF_short spr x (Or.inl (by omega)),
            remF_short spr x (Or.inl (by omega))]
          simp
        · rw [remF_short spr x (Or.inl (by omega))]

/-- Modelled from the spec: the records produced from consecutive chunks
of one channel, each record carrying its start time; the start time
advances by (samples · period) per record. -/
def recsFrom (period : ℤ) : ℤ → List (List ℤ) → List (ℤ × List ℤ)
  | _, [] => []
  | t, c :: cs => (t, c) :: recsFrom period (t + (c.length : ℤ) * period) cs

/-- Lemma: `recsFrom` distributes over chunk-list appends, the second part
starting after the samples of the first. -/
lemma recsFrom_append (period : ℤ) :
    ∀ (cs ds : List (List ℤ)) (t : ℤ),
      recsFrom period t (cs ++ ds) =
        recsFrom period t cs ++
          recsFrom period (t + (cs.flatten.length : ℤ) * period) ds := by
  intro cs
  induction cs with
  | nil => intro ds t; simp [recsFrom]
  | cons c cs ih =>
      intro ds t
      simp only [List.cons_append, recsFrom, List.cons.injEq, true_and]
      rw [show cs.append ds = cs ++ ds from rfl, ih]
      congr 2
      rw [List.flatten_cons, List.length_append]
      push_cast
      ring

/-- The per-channel state of the trace list between `pack` calls: the
time of the first buffered sample and the buffered samples. -/
structure ChannelState where
  t : ℤ
  buf : List ℤ
  deriving Repr, DecidableEq

/-- Modelled from the spec: one `mstl3_pack` call on one channel.  With
`flush=true` everything is emitted (final record possibly undersized)
and the buffer empties; with `flush=false` only whole records are
emitted, the remainder stays buffered, and the channel time advances by
the consumed samples. -/
def packOnce (spr : ℕ) (period : ℤ) (flush : Bool) (st : ChannelState) :
    List (ℤ × List ℤ) × ChannelState :=
  if flush then
    (recsFrom period st.t (chunksAll spr st.buf),
     ⟨st.t + (st.buf.length : ℤ) * period, []⟩)
  else
    (recsFrom period st.t (chunksF spr st.buf),
     ⟨st.t + ((st.buf.length : ℤ) - ((remF spr st.buf).length : ℤ)) * period,
      remF spr st.buf⟩)

/-- Method `MSTraceList.add_data` for one channel: append the batch to the
buffered samples (the caller supplies the matching start time, so the
batch extends the current segment). -/
def add_data (st : ChannelState) (batch : List ℤ) : ChannelState :=
  ⟨st.t, st.buf ++ batch⟩

/-- One `add_data` + `pack(flush_data=False)` iteration, accumulating
the handler output. -/
def packStep (spr : ℕ) (period : ℤ)
    (acc : List (ℤ × List ℤ) × ChannelState) (b : List ℤ) :
    List (ℤ × List ℤ) × ChannelState :=
  (acc.1 ++ (packOnce spr period false (add_data acc.2 b)).1,
   (packOnce spr period false (add_data acc.2 b)).2)

/-- Chunked packing: add each batch, pack with `flush_data=False`, and
finish with one `flush_data=True` call; the result is the concatenated
handler output. -/
def packIncremental (spr : ℕ) (period t0 : ℤ) (batches : List (List ℤ)) :
    List (ℤ × List ℤ) :=
  (batches.foldl (packStep spr period) ([], ⟨t0, []⟩)).1 ++
    (packOnce spr period true
      (batches.foldl (packStep spr period) ([], ⟨t0, []⟩)).2).1

/-- Single-shot packing: add all batches, then one `flush_data=True`
call. -/
def packSingle (spr : ℕ) (period t0 : ℤ) (batches : List (List ℤ)) :
    List (ℤ × List ℤ) :=
  (packOnce spr period true (batches.foldl add_data ⟨t0, []⟩)).1

/-- Lemma: `packOnce` with `flush=false`, spelled out. -/
lemma packOnce_false (spr : ℕ) (period t : ℤ) (buf : List ℤ) :
    packOnce spr period false ⟨t, buf⟩ =
      (recsFrom period t (chunksF spr buf),
       ⟨t + ((buf.length : ℤ) - ((remF spr buf).length : ℤ)) * period,
        remF spr buf⟩) := rfl

/-- Lemma: `packOnce` with `flush=true`, spelled out. -/
lemma packOnce_true (spr : ℕ) (period t : ℤ) (buf : List ℤ) :
    packOnce spr period true ⟨t, buf⟩ =
      (recsFrom period t (chunksAll spr buf),
       ⟨t + (buf.length : ℤ) * period, []⟩) := rfl

/-- Adding all batches to an initial buffer concatenates them. -/
lemma foldl_add_data (t0 : ℤ) :
    ∀ (batches : List (List ℤ)) (pre : List ℤ),
      batches.foldl add_data ⟨t0, pre⟩ = ⟨t0, pre ++ batches.flatten⟩ := by
  intro batches
  induction batches with
  | nil => intro pre; simp [add_data]
  | cons b bs ih =>
      intro pre
      simp only [List.foldl_cons, add_data]
      rw [ih]
      simp

/-- One incremental step preserves the packing invariant: emitted records
so far are exactly the full records of the samples so far, and the
buffer is their leftover tail. -/
lemma packStep_inv (spr : ℕ) (period : ℤ) (h : 0 < spr) (t0 : ℤ)
    (pre b : List ℤ) :
    packStep spr period
        (recsFrom period t0 (chunksF spr pre),
         ⟨t0 + ((pre.length : ℤ) - ((remF spr pre).length : ℤ)) * period,
          remF spr pre⟩) b =
      (recsFrom period t0 (chunksF spr (pre ++ b)),
       ⟨t0 + (((pre ++ b).length : ℤ) -
          ((remF spr (pre ++ b)).length : ℤ)) * period,
        remF spr (pre ++ b)⟩) := by
  have happ := chunksF_append spr h pre.length pre b le_rfl
  have hfl := chunksF_flatten spr h pre.length pre le_rfl
  have hlen : ((chunksF spr pre).flatten.length : ℤ) =
      (pre.length : ℤ) - ((remF spr pre).length : ℤ) := by
    have hc := congrArg List.length hfl
    rw [List.length_append] at hc
    omega
  unfold packStep add_data
  dsimp only
  rw [packOnce_false]
  refine Prod.ext ?_ ?_
  · dsimp only
    rw [happ.1, recsFrom_append, hlen]
  · dsimp only
    rw [happ.2]
    congr 1
    rw [List.length_append, List.length_append]
    push_cast
    ring

/-- The incremental loop maintains the packing invariant across any
batch sequence. -/
lemma packIncremental_loop (spr : ℕ) (period : ℤ) (h : 0 < spr) :
    ∀ (batches : List (List ℤ)) (t0 : ℤ) (pre : List ℤ),
      batches.foldl (packStep spr period)
          (recsFrom period t0 (chunksF spr pre),
           ⟨t0 + ((pre.length : ℤ) - ((remF spr pre).length : ℤ)) * period,
            remF spr pre⟩) =
        (recsFrom period t0 (chunksF spr (pre ++ batches.flatten)),
         ⟨t0 + (((pre ++ batches.flatten).length : ℤ) -
            ((remF spr (pre ++ batches.flatten)).length : ℤ)) * period,
          remF spr (pre ++ batches.flatten)⟩) := by
  intro batches
  induction batches with
  | nil =>
      intro t0 pre
      simp
  | cons b bs ih =>
      intro t0 pre
      rw [List.foldl_cons, packStep_inv spr period h t0 pre b, ih t0 (pre ++ b)]
      rw [List.flatten_cons, ← List.append_assoc]

/-! ## Theorems: C1 (chunked packing equals single-shot packing) -/

/-- C1: for any per-record capacity `spr > 0`, adding sample batches one
at a time with a `flush_data=False` pack after each and a final
`flush_data=True` pack produces exactly the same record sequence — and
hence the same total packed-sample count and packed-record count — as
one `flush_data=True` pack over the concatenated samples. -/
theorem pack_chunked_equals_single (spr : ℕ) (period t0 : ℤ)
    (batches : List (List ℤ)) (h : 0 < spr) :
    packIncremental spr period t0 batches = packSingle spr period t0 batches ∧
    ((packIncremental spr period t0 batches).map (fun r => r.2.length)).sum =
      ((packSingle spr period t0 batches).map (fun r => r.2.length)).sum ∧
    (packIncremental spr period t0 batches).length =
      (packSingle spr period t0 batches).length := by
  have hinit : (([] : List (ℤ × List ℤ)), (⟨t0, []⟩ : ChannelState)) =
      (recsFrom period t0 (chunksF spr []),
       ⟨t0 + ((([] : List ℤ).length : ℤ) - ((remF spr []).length : ℤ)) * period,
        remF spr []⟩) := by
    rw [chunksF_short spr [] (Or.inl h), remF_short spr [] (Or.inl h)]
    simp [recsFrom]
  have hmain : packIncremental spr period t0 batches =
      packSingle spr period t0 batches := by
    unfold packIncremental packSingle
    rw [hinit, packIncremental_loop spr period h batches t0 [],
      foldl_add_data t0 batches []]
    simp only [List.nil_append]
    rw [packOnce_true, packOnce_true]
    dsimp only
    have hrlt : (remF spr batches.flatten).length < spr :=
      remF_length_lt spr h batches.flatten.length batches.flatten le_rfl
    have hall : chunksAll spr (remF spr batches.flatten) =
        (if remF spr batches.flatten = [] then []
         else [remF spr batches.flatten]) := by
      unfold chunksAll
      rw [chunksF_short spr _ (Or.inl hrlt), remF_short spr _ (Or.inl hrlt)]
      rfl
    rw [hall,
      show chunksAll spr batches.flatten = chunksF spr batches.flatten ++
        (if remF spr batches.flatten = [] then []
         else [remF spr batches.flatten]) from rfl,
      recsFrom_append]
    have hfl := chunksF_flatten spr h batches.flatten.length batches.flatten le_rfl
    have hlen : ((chunksF spr batches.flatten).flatten.length : ℤ) =
        ((batches.flatten.length : ℤ)) -
          ((remF spr batches.flatten).length : ℤ) := by
      have hc := congrArg List.length hfl
      rw [List.length_append] at hc
      omega
    rw [hlen]
  exact ⟨hmain, by rw [hmain], by rw [hmain]⟩

/-- Witness for `pack_chunked_equals_single` at capacity 3, period 10,
batches `[[1,2,3,4],[5]]`. -/
theorem pack_chunked_equals_single_witness :
    0 < 3 ∧
    (packIncremental 3 10 0 [[1, 2, 3, 4], [5]] =
       packSingle 3 10 0 [[1, 2, 3, 4], [5]] ∧
     ((packIncremental 3 10 0 [[1, 2, 3, 4], [5]]).map (fun r => r.2.length)).sum =
       ((packSingle 3 10 0 [[1, 2, 3, 4], [5]]).map (fun r => r.2.length)).sum ∧
     (packIncremental 3 10 0 [[1, 2, 3, 4], [5]]).length =
       (packSingle 3 10 0 [[1, 2, 3, 4], [5]]).length) :=
  ⟨by norm_num, pack_chunked_equals_single 3 10 0 [[1, 2, 3, 4], [5]] (by norm_num)⟩

end Mseedlib
